import Mathlib

set_option maxRecDepth 100000

/-!
Verification development for the Hough peak-detection and track-matching
engine.

The definitions below are shallow embeddings of the repository's code:

* `oddWindow`, `windowVals`, `windowMax`, `isPeakAt`, `slidingPeakCandidates`,
  `closeIdxPairs`, `mergeStep`, `vectorizedSlidingPeaks`, `binCenters`,
  `findLocalMaxima2d` embed `peak_detection.py::vectorized_2d_sliding_peaks`
  and `find_local_maxima_2d` (the identical algorithm also appears in
  `services/peak_detector.py::_vectorized_sliding_peaks`).  Grid values are
  kept generic over a linear order, matching numpy comparisons and `np.max`;
  the `smooth_sigma = 0` configuration is modelled (the `gaussian_filter`
  branch of the source is not taken for the configured `SMOOTH_SIGMA = 0`).
* `Track`, `Peak`, `HoughSquare`, `firstMatch`, `clipBounds`, `sliceRegion`,
  `extractAndClassifySquare`, `matchAndExtractSquares`,
  `updateTrackReconstructionStatus` embed `services/hough_matcher.py` and
  `domain/track.py`, `domain/peak.py`, `domain/hough_square.py`.
* `getHoughSquaresCore` and `applyRecoUpdate` embed the legacy pipeline in
  `hough_processing.py` (`get_hough_squares` and the reconstruction-flag
  update in `match_and_write`).
* `easeLo`, `easeHi`, `getSliceBounds`, `filterTracksForSlice` embed
  `services/track_slicer.py`; `factoryCreate` embeds
  `strategies/easing_strategy.py::EasingStrategyFactory.create`;
  `houghSlicerEasing` embeds the name dispatch of
  `slicer.py::HoughSlicer.easing`.

Real-number quantities of the source (float coordinates, tolerances, easing
values) are modelled as rationals; `sqrt(d) <= tolerance` comparisons are
modelled by the equivalent `d <= tolerance^2` on squared distances (the
engine's tolerance is the non-negative constant 6.0).
-/

/-- Python `int(x)` / numpy `astype(int)` conversion: truncation toward zero.
The source applies it to floats; here a rational stands in for the float. -/
def pyInt (q : ℚ) : Int := Int.tdiv q.num q.den

/-- Embeds the window-size adjustment at the top of
`vectorized_2d_sliding_peaks`: an even window size is bumped to the next odd
value. -/
def oddWindow (w : Nat) : Nat := if w % 2 == 0 then w + 1 else w

/-- All values of the `w × w` window whose top-left corner is grid position
`(i, j)`, in row-major order, as produced by `sliding_window_view`. -/
def windowVals {α : Type} (M : Nat → Nat → α) (w i j : Nat) : List α :=
  (List.range w).flatMap fun a => (List.range w).map fun b => M (i + a) (j + b)

/-- Embeds `np.max(windows_2d, axis=(2, 3))` for the window at `(i, j)`:
the maximum over all window values. -/
def windowMax {α : Type} [LinearOrder α] (M : Nat → Nat → α) (w i j : Nat) : α :=
  (windowVals M w i j).foldl max (M i j)

/-- Embeds the per-window peak test of `vectorized_2d_sliding_peaks`: the
center value equals the window maximum and meets the `min_height`
threshold. -/
def isPeakAt {α : Type} [LinearOrder α] (M : Nat → Nat → α) (minHeight : α)
    (w i j : Nat) : Bool :=
  decide (M (i + w / 2) (j + w / 2) = windowMax M w i j) &&
    decide (minHeight ≤ M (i + w / 2) (j + w / 2))

/-- Embeds the candidate extraction of `vectorized_2d_sliding_peaks` on an
`R × C` grid: `np.where(is_peak)` in row-major order, with the window offset
`half_window` added back to both coordinates. -/
def slidingPeakCandidates {α : Type} [LinearOrder α] (M : Nat → Nat → α)
    (minHeight : α) (R C w : Nat) : List (Nat × Nat) :=
  (List.range (R + 1 - w)).flatMap fun i =>
    (List.range (C + 1 - w)).filterMap fun j =>
      if isPeakAt M minHeight w i j then some (i + w / 2, j + w / 2) else none

/-- Squared Euclidean distance between two integer grid coordinates.  The
source compares `cdist` distances with `min_distance`; for non-negative
bounds `sqrt(d) <= m` is equivalent to `d <= m^2`. -/
def distSq (p q : Nat × Nat) : Int :=
  ((p.1 : Int) - q.1) ^ 2 + ((p.2 : Int) - q.2) ^ 2

/-- Embeds `np.where((distances > 0) & (distances <= min_distance))` over the
candidate list: all index pairs `(i, j)` (in row-major order of the distance
matrix, so including `i > j`) whose coordinates are distinct and within
`min_distance` of each other. -/
def closeIdxPairs (cs : List (Nat × Nat)) (minDist : Nat) : List (Nat × Nat) :=
  (List.range cs.length).flatMap fun i =>
    (List.range cs.length).filterMap fun j =>
      if 0 < distSq (cs.getD i (0, 0)) (cs.getD j (0, 0)) ∧
          distSq (cs.getD i (0, 0)) (cs.getD j (0, 0)) ≤ (minDist : Int) ^ 2
      then some (i, j) else none

/-- Embeds one iteration of the merge loop of `vectorized_2d_sliding_peaks`:
for a close pair `(i, j)` with `i < j` and both indices still kept, the one
with the lower value is removed (ties remove `j`, python's
`peak_values[i] >= peak_values[j]` branch); otherwise nothing happens. -/
def mergeStep {α : Type} [LinearOrder α] (v : Nat → α) (keep : List Nat)
    (pr : Nat × Nat) : List Nat :=
  if pr.1 < pr.2 ∧ pr.1 ∈ keep ∧ pr.2 ∈ keep then
    if v pr.2 ≤ v pr.1 then keep.erase pr.2 else keep.erase pr.1
  else keep

/-- Embeds `vectorized_2d_sliding_peaks`: candidate detection followed by the
merge loop over close pairs; the surviving indices (kept in ascending order,
python's `sorted(peaks_to_keep)`) are mapped back to coordinates. -/
def vectorizedSlidingPeaks {α : Type} [LinearOrder α] (M : Nat → Nat → α)
    (minHeight : α) (R C minDist w0 : Nat) : List (Nat × Nat) :=
  let w := oddWindow w0
  let cs := slidingPeakCandidates M minHeight R C w
  let v : Nat → α := fun k => M (cs.getD k (0, 0)).1 (cs.getD k (0, 0)).2
  let keep := (closeIdxPairs cs minDist).foldl (mergeStep v) (List.range cs.length)
  keep.map fun k => cs.getD k (0, 0)

/-- Bin centers from bin edges: `0.5 * (edges[1:] + edges[:-1])`. -/
def binCenters (edges : Nat → ℚ) (i : Nat) : ℚ := (edges i + edges (i + 1)) / 2

/-- Embeds `find_local_maxima_2d` (for the configured `smooth_sigma = 0`):
peaks as `(xcenters[x_idx], ycenters[y_idx], values[y_idx, x_idx])` triples
for each detected coordinate `(y_idx, x_idx)`, with window size
`2 * min_distance`. -/
def findLocalMaxima2d {α : Type} [LinearOrder α] (M : Nat → Nat → α) (R C : Nat)
    (xedges yedges : Nat → ℚ) (thresholdAbs : α) (minDist : Nat) :
    List (ℚ × ℚ × α) :=
  (vectorizedSlidingPeaks M thresholdAbs R C minDist (2 * minDist)).map
    fun rc => (binCenters xedges rc.2, binCenters yedges rc.1, M rc.1 rc.2)

/-- The grid of the spec's single-cell detector scenario: zero everywhere
except value 10 at row 50, column 60. -/
def oneCellGrid : Nat → Nat → Nat := fun r c => if r = 50 ∧ c = 60 then 10 else 0

/-- A grid with two horizontally adjacent equal-valued maxima at (2,2) and
(2,3), used for the tie-breaking scenario of peak merging. -/
def twoMaxGrid : Nat → Nat → Nat :=
  fun r c => if r = 2 ∧ (c = 2 ∨ c = 3) then 7 else 0

/-- Embeds `domain/track.py::Track`: one ground-truth track record.  The
`reco` column written on persistence is 1 iff `is_reconstructed`. -/
structure Track where
  event_id : Int
  phi_bin : ℚ
  curv_bin : ℚ
  eta : ℚ
  vz : ℚ
  number_of_hits : Nat
  pz_over_pt : ℚ
  particle_type : Int
  phi : ℚ
  pt : ℚ
  pz : ℚ
  is_reconstructed : Bool

/-- Embeds `domain/peak.py::Peak`: x is the curvature coordinate, y the
angular coordinate. -/
structure Peak where
  x : ℚ
  y : ℚ
  height : ℚ

/-- Embeds `domain/hough_square.py::SquareClassification`. -/
inductive SquareClassification
  | true_positive
  | false_positive
  | unclassified

/-- Embeds `domain/hough_square.py::HoughSquare`: the extracted data (after
`astype(int)`), its classification and center. -/
structure HoughSquare where
  data : List (List Int)
  classification : SquareClassification
  center_x : ℚ
  center_y : ℚ

/-- Embeds `cotangent` of a track (`pz_over_pt`). -/
def cotangent (t : Track) : ℚ := t.pz_over_pt

/-- Names the clipped extraction bounds of
`HoughMatcherService._extract_and_classify_square`, the same expressions
computed inline there: `x_start = max(0, int(square_y))`,
`x_end = min(R, int(square_y + 2*size))`, and similarly for columns from
`square_x`, where `square_x = peak.x - size` and `square_y = peak.y - size`.
Used to phrase the wrong-shape discard property. -/
def clipBounds (R C size : Nat) (peak : Peak) : Int × Int × Int × Int :=
  (max 0 (pyInt (peak.y - (size : ℚ))),
   min (R : Int) (pyInt (peak.y - (size : ℚ) + 2 * (size : ℚ))),
   max 0 (pyInt (peak.x - (size : ℚ))),
   min (C : Int) (pyInt (peak.x - (size : ℚ) + 2 * (size : ℚ))))

/-- Embeds `np.copy(values[x_start:x_end, y_start:y_end])`: the rows
`x_start..x_end-1` and columns `y_start..y_end-1` of the grid (the bounds are
already clamped to `[0, R] × [0, C]` where this is used). -/
def sliceRegion (values : Nat → Nat → ℚ) (xs xe ys ye : Int) : List (List ℚ) :=
  (List.range (xe - xs).toNat).map fun i =>
    (List.range (ye - ys).toNat).map fun j =>
      values (xs.toNat + i) (ys.toNat + j)

/-- Embeds the track scan of
`HoughMatcherService._extract_and_classify_square`: tracks already assigned
(`assignment_mask[idx] > 0`) are skipped; the first remaining track whose
(curv_bin, phi_bin) position is within `tolerance` of the peak
(`peak.is_within_tolerance`, modelled on squared distances) is returned and
the loop breaks. -/
def firstMatch (peak : Peak) (tolerance : ℚ) (mask : List Nat) :
    List Track → Nat → Option Nat
  | [], _ => none
  | t :: ts, idx =>
      if mask.getD idx 0 > 0 then firstMatch peak tolerance mask ts (idx + 1)
      else if (peak.x - t.curv_bin) ^ 2 + (peak.y - t.phi_bin) ^ 2 ≤ tolerance ^ 2 then
        some idx
      else firstMatch peak tolerance mask ts (idx + 1)

/-- Embeds `HoughMatcherService._extract_and_classify_square`: clipped
extraction (discarding the peak when the region is empty or not exactly
`2*size × 2*size`), then the first-fit track scan, then construction of the
classified square (`true_positive` iff a track was claimed); the square data
is the copied region after `astype(int)`. -/
def extractAndClassifySquare (values : Nat → Nat → ℚ) (R C size : Nat)
    (tolerance : ℚ) (peak : Peak) (tracks : List Track) (mask : List Nat) :
    Option HoughSquare × Bool × Option Nat :=
  let square_x := peak.x - (size : ℚ)
  let square_y := peak.y - (size : ℚ)
  let center_x := square_x + (size : ℚ)
  let center_y := square_y + (size : ℚ)
  let x_start : Int := max 0 (pyInt square_y)
  let x_end : Int := min (R : Int) (pyInt (square_y + 2 * (size : ℚ)))
  let y_start : Int := max 0 (pyInt square_x)
  let y_end : Int := min (C : Int) (pyInt (square_x + 2 * (size : ℚ)))
  if x_end ≤ x_start ∨ y_end ≤ y_start then (none, false, none)
  else
    let square_region := sliceRegion values x_start x_end y_start y_end
    if ¬(x_end - x_start = (2 * size : Int) ∧ y_end - y_start = (2 * size : Int)) then
      (none, false, none)
    else
      match firstMatch peak tolerance mask tracks 0 with
      | some idx =>
          (some ⟨square_region.map (fun row => row.map pyInt),
            SquareClassification.true_positive, center_x, center_y⟩, true, some idx)
      | none =>
          (some ⟨square_region.map (fun row => row.map pyInt),
            SquareClassification.false_positive, center_x, center_y⟩, false, none)

/-- One iteration of the peak loop of
`HoughMatcherService.match_and_extract_squares` over the state
`(squares so far, assignment mask, tracks)`: when a square was produced it is
added, and when additionally a match was found the claimed track's mask entry
is set to 1; a discarded peak leaves the state unchanged.  The track list is
threaded through unchanged, mirroring that the source only reads the track
objects here. -/
def matchStep (values : Nat → Nat → ℚ) (R C size : Nat) (tolerance : ℚ)
    (st : List HoughSquare × List Nat × List Track) (peak : Peak) :
    List HoughSquare × List Nat × List Track :=
  match extractAndClassifySquare values R C size tolerance peak st.2.2 st.2.1 with
  | (some sq, has, midx) =>
      (st.1 ++ [sq],
       if has then
         match midx with
         | some k => st.2.1.set k 1
         | none => st.2.1
       else st.2.1,
       st.2.2)
  | (none, _, _) => st

/-- Embeds `HoughMatcherService.match_and_extract_squares`: an initially zero
assignment mask over the tracks and a pass over the peaks in the order given
by the peak finder. -/
def matchAndExtractSquares (values : Nat → Nat → ℚ) (R C size : Nat)
    (tolerance : ℚ) (peaks : List Peak) (tracks : List Track) :
    List HoughSquare × List Nat × List Track :=
  peaks.foldl (matchStep values R C size tolerance)
    ([], List.replicate tracks.length 0, tracks)

/-- Embeds `Track.mark_reconstructed`. -/
def markReconstructed (t : Track) : Track := { t with is_reconstructed := true }

/-- Recursion underlying `update_track_reconstruction_status`: walk the
tracks with their index; a track with `assignment_mask[idx] > 0` that is not
yet reconstructed is marked and counted. -/
def updateTracksFrom (mask : List Nat) : List Track → Nat → List Track × Nat
  | [], _ => ([], 0)
  | t :: ts, idx =>
      let rest := updateTracksFrom mask ts (idx + 1)
      if mask.getD idx 0 > 0 ∧ t.is_reconstructed = false then
        (markReconstructed t :: rest.1, rest.2 + 1)
      else (t :: rest.1, rest.2)

/-- Embeds `HoughMatcherService.update_track_reconstruction_status`. -/
def updateTrackReconstructionStatus (tracks : List Track) (mask : List Nat) :
    List Track × Nat :=
  updateTracksFrom mask tracks 0

/-- Embeds the inner track loop of the legacy
`hough_processing.py::get_hough_squares`: for every true peak (row
`(phi_bin, curv_bin)`, so `true_x = row[1]`, `true_y = row[0]`) whose
distance from the square center is within tolerance and whose mask entry is
still 0 (`true_peaks_mask[i] < 0.5`), set `has_true_peak` and the mask entry;
the loop has no break, so a single reconstructed peak claims every
still-unclaimed true peak within tolerance. -/
def legacyClaimLoop (cx cy tolerance : ℚ) (truePeaks : List (ℚ × ℚ))
    (mask : List Nat) : Bool × List Nat :=
  (List.range truePeaks.length).foldl
    (fun st i =>
      let tp := truePeaks.getD i (0, 0)
      if (cx - tp.2) ^ 2 + (cy - tp.1) ^ 2 ≤ tolerance ^ 2 ∧ st.2.getD i 0 = 0 then
        (true, st.2.set i 1)
      else st)
    (false, mask)

/-- Embeds the legacy `hough_processing.py::get_hough_squares` peak loop (the
part producing `true_squares`, `false_squares` and `true_peaks_mask`): for
each reconstructed peak `(x, y)`, clipped bounds are computed; if the clipped
region is non-empty, the region is copied and the claiming loop runs; the
square is appended (to `true_squares` when a track was claimed, else to
`false_squares`) only when the region shape is exactly `2*SIZE × 2*SIZE`, but
the mask updates made by the claiming loop are kept in every case. -/
def getHoughSquaresCore (values : Nat → Nat → ℚ) (R C size : Nat)
    (tolerance : ℚ) (peaks : List (ℚ × ℚ)) (truePeaks : List (ℚ × ℚ)) :
    List (List (List Int)) × List (List (List Int)) × List Nat :=
  peaks.foldl
    (fun st peak =>
      let square_x := peak.1 - (size : ℚ)
      let square_y := peak.2 - (size : ℚ)
      let center_x := square_x + (size : ℚ)
      let center_y := square_y + (size : ℚ)
      let x_start : Int := max 0 (pyInt square_y)
      let x_end : Int := min (R : Int) (pyInt (square_y + 2 * (size : ℚ)))
      let y_start : Int := max 0 (pyInt square_x)
      let y_end : Int := min (C : Int) (pyInt (square_x + 2 * (size : ℚ)))
      if x_start < x_end ∧ y_start < y_end then
        let region := sliceRegion values x_start x_end y_start y_end
        let scan := legacyClaimLoop center_x center_y tolerance truePeaks st.2.2
        if x_end - x_start = (2 * size : Int) ∧ y_end - y_start = (2 * size : Int) then
          if scan.1 then (st.1 ++ [region.map (List.map pyInt)], st.2.1, scan.2)
          else (st.1, st.2.1 ++ [region.map (List.map pyInt)], scan.2)
        else (st.1, st.2.1, scan.2)
      else st)
    ([], [], List.replicate truePeaks.length 0)

/-- Embeds the reconstruction-flag update at the end of
`hough_processing.py::match_and_write`: when the result mask length equals
the stored `reco` column length the columns are OR-combined
(`result_mask | reco`); otherwise an error line is printed (the returned
flag) and the column is left unchanged. -/
def applyRecoUpdate (recoVals resultMask : List Nat) : List Nat × Bool :=
  if resultMask.length = recoVals.length then
    ((resultMask.zip recoVals).map fun p => p.1 ||| p.2, false)
  else (recoVals, true)

/-- Embeds the tail of `match_and_write`: the reco update followed by the
normal return of `(true_squares, false_squares, n_truetracks)`; the length
mismatch only produces the printed warning flag and never prevents the
return. -/
def matchAndWriteFinish (trueSquares falseSquares : List (List (List Int)))
    (nTrueTracks : Nat) (recoVals resultMask : List Nat) :
    (List (List (List Int)) × List (List (List Int)) × Nat) × List Nat × Bool :=
  ((trueSquares, falseSquares, nTrueTracks), applyRecoUpdate recoVals resultMask)

/-- Embeds `TrackCollection.filter_by_vz_range` /
`Track.is_in_vz_range` (strict inequalities on both sides). -/
def filterByVzRange (vzMin vzMax : ℚ) (tracks : List Track) : List Track :=
  tracks.filter fun t => decide (vzMin < t.vz ∧ t.vz < vzMax)

/-- Embeds `TrackCollection.filter_by_cot_range` /
`Track.is_in_cot_range` (strict inequalities on both sides). -/
def filterByCotRange (cotMin cotMax : ℚ) (tracks : List Track) : List Track :=
  tracks.filter fun t => decide (cotMin < cotangent t ∧ cotangent t < cotMax)

/-- Embeds the `lo_cot` computation of
`TrackSlicerService.get_slice_bounds`: `ease(-32.0 + 2.0 * max(slice_num, 0))`.
The easing function is a parameter, as the injected strategy is in the
source. -/
def easeLo (ease : ℚ → ℚ) (sliceNum : Int) : ℚ :=
  ease (-32 + 2 * ((max sliceNum 0 : Int) : ℚ))

/-- Embeds the `hi_cot` computation of
`TrackSlicerService.get_slice_bounds`: `ease(-32.0 + 2.0 * min(slice_num + 1, 32))`. -/
def easeHi (ease : ℚ → ℚ) (sliceNum : Int) : ℚ :=
  ease (-32 + 2 * ((min (sliceNum + 1) 32 : Int) : ℚ))

/-- Embeds `TrackSlicerService.get_slice_bounds`: `(None, None)` for slice
-1, otherwise the eased bounds. -/
def getSliceBounds (ease : ℚ → ℚ) (sliceNum : Int) : Option ℚ × Option ℚ :=
  if sliceNum = -1 then (none, none)
  else (some (easeLo ease sliceNum), some (easeHi ease sliceNum))

/-- Embeds `TrackSlicerService.filter_tracks_for_slice`: the vz filter, then
the cotangent filter with bounds from slices 0 and 32 (for `slice_num > -1`)
or slices 10 and 22 plus the strict curvature-bin window
`(square_size, nbin_qpt - square_size)` (for the `else` branch taken at
`slice_num == -1`). -/
def filterTracksForSlice (ease : ℚ → ℚ) (vzMin vzMax : ℚ) (size nbinQpt : Nat)
    (tracks : List Track) (sliceNum : Int) : List Track :=
  if sliceNum > -1 then
    filterByCotRange (easeLo ease 0) (easeHi ease 32)
      (filterByVzRange vzMin vzMax tracks)
  else
    (filterByCotRange (easeLo ease 10) (easeHi ease 22)
        (filterByVzRange vzMin vzMax tracks)).filter
      fun t => decide ((0 : ℚ) + (size : ℚ) < t.curv_bin ∧
        t.curv_bin < (nbinQpt : ℚ) - (size : ℚ))

/-- Admission predicate written from the spec's words, to be compared with
the composed filters of the source: strict vz window, cotangent strictly
between `bounds(0).lo` and `bounds(32).hi` when `slice_num > -1`, and for the
other branch cotangent strictly between `bounds(10).lo` and `bounds(22).hi`
with curvature bin strictly inside `(square_size, nbin_qpt - square_size)`. -/
def admittedBySpec (ease : ℚ → ℚ) (vzMin vzMax : ℚ) (size nbinQpt : Nat)
    (sliceNum : Int) (t : Track) : Prop :=
  vzMin < t.vz ∧ t.vz < vzMax ∧
    (if sliceNum > -1 then
      easeLo ease 0 < cotangent t ∧ cotangent t < easeHi ease 32
    else
      (easeLo ease 10 < cotangent t ∧ cotangent t < easeHi ease 22) ∧
        (size : ℚ) < t.curv_bin ∧ t.curv_bin < (nbinQpt : ℚ) - (size : ℚ))

instance (ease : ℚ → ℚ) (vzMin vzMax : ℚ) (size nbinQpt : Nat)
    (sliceNum : Int) (t : Track) :
    Decidable (admittedBySpec ease vzMin vzMax size nbinQpt sliceNum t) := by
  unfold admittedBySpec
  infer_instance

/-- The five easing strategies of `strategies/easing_strategy.py`, as a
closed variant type. -/
inductive EasingVariant
  | linear
  | inSine
  | inSquare
  | inCubic
  | inCirc

/-- Embeds `EasingStrategyFactory._strategies`: the name-to-strategy
dictionary, in its source order. -/
def strategiesDict : List (String × EasingVariant) :=
  [("Linear", EasingVariant.linear),
   ("InSine", EasingVariant.inSine),
   ("InSquare", EasingVariant.inSquare),
   ("InCubic", EasingVariant.inCubic),
   ("InCirc", EasingVariant.inCirc)]

/-- Embeds `EasingStrategyFactory.create`: dictionary lookup by name;
`none` models the `ValueError` raised for an unknown strategy name. -/
def factoryCreate (name : String) : Option EasingVariant :=
  strategiesDict.lookup name

/-- Embeds the name dispatch of the legacy `slicer.py::HoughSlicer.easing`.
The four non-linear easing bodies are float computations involving `cos` and
`sqrt` and are abstracted as function parameters; what matters here is the
dispatch: any name other than the four recognized non-linear ones falls
through to the final `else` branch, which returns `x` (the Linear easing),
so an unknown name is silently treated as Linear and never raises. -/
def houghSlicerEasing (fInSine fInSquare fInCubic fInCirc : ℚ → ℚ)
    (easingType : String) (x : ℚ) : ℚ :=
  if easingType = "InSine" then fInSine x
  else if easingType = "InSquare" then fInSquare x
  else if easingType = "InCubic" then fInCubic x
  else if easingType = "InCirc" then fInCirc x
  else x

/-- A sample track used by concrete witnesses. -/
def sampleTrack : Track := ⟨0, 20, 20, 0, 0, 4, 1, 13, 0, 1, 1, false⟩

/-- A grid holding the non-integer value 1/2 at (4, 4) and 1 elsewhere. -/
def halfCellGrid : Nat → Nat → ℚ := fun r c => if r = 4 ∧ c = 4 then 1 / 2 else 1

/-- Characterization of the candidate list: a grid cell is a candidate
exactly when its centered window fits inside the grid, its value is the
window maximum, and it meets the threshold. -/
theorem mem_slidingPeakCandidates {α : Type} [LinearOrder α] (M : Nat → Nat → α)
    (minH : α) (R C m r c : Nat) :
    (r, c) ∈ slidingPeakCandidates M minH R C (oddWindow (2 * m)) ↔
      (m ≤ r ∧ r + m < R ∧ m ≤ c ∧ c + m < C ∧
        M r c = windowMax M (oddWindow (2 * m)) (r - m) (c - m) ∧ minH ≤ M r c) := by
  have hw : oddWindow (2 * m) = 2 * m + 1 := by
    simp [oddWindow, Nat.mul_mod_right]
  have hhalf : (2 * m + 1) / 2 = m := by omega
  rw [hw]
  simp only [slidingPeakCandidates, List.mem_flatMap, List.mem_filterMap,
    List.mem_range, Option.ite_none_right_eq_some, Option.some.injEq,
    Prod.mk.injEq, isPeakAt, Bool.and_eq_true, decide_eq_true_eq, hhalf]
  constructor
  · rintro ⟨i, hi, j, hj, ⟨⟨hmax, hth⟩, hr, hc⟩⟩
    subst hr; subst hc
    refine ⟨by omega, by omega, by omega, by omega, ?_, hth⟩
    simpa [Nat.add_sub_cancel] using hmax
  · rintro ⟨h1, h2, h3, h4, hmax, hth⟩
    refine ⟨r - m, by omega, c - m, by omega, ⟨⟨?_, ?_⟩, by omega, by omega⟩⟩
    · rw [Nat.sub_add_cancel h1, Nat.sub_add_cancel h3]; exact hmax
    · rw [Nat.sub_add_cancel h1, Nat.sub_add_cancel h3]; exact hth

/-- A flatMap over a list of indices whose function is everywhere empty is
empty. -/
theorem flatMap_nil_of_forall {α : Type} (g : Nat → List α) :
    ∀ l : List Nat, (∀ i ∈ l, g i = []) → l.flatMap g = [] := by
  intro l
  induction l with
  | nil => intro h; rfl
  | cons a t ih =>
    intro h
    rw [List.flatMap_cons, h a (by simp), List.nil_append]
    exact ih fun i hi => h i (by simp [hi])

/-- A filterMap over a list of indices whose function is everywhere `none`
is empty. -/
theorem filterMap_nil_of_forall {α : Type} (f : Nat → Option α) :
    ∀ l : List Nat, (∀ i ∈ l, f i = none) → l.filterMap f = [] := by
  intro l
  induction l with
  | nil => intro h; rfl
  | cons a t ih =>
    intro h
    rw [List.filterMap_cons, h a (by simp)]
    exact ih fun i hi => h i (by simp [hi])

/-- A flatMap over a range whose function is empty away from one index
collapses to that index's list. -/
theorem range_flatMap_single {α : Type} (g : Nat → List α) :
    ∀ n k : Nat, k < n → (∀ i, i ≠ k → g i = []) →
      (List.range n).flatMap g = g k := by
  intro n
  induction n with
  | zero => intro k hk hg; omega
  | succ m ih =>
    intro k hk hg
    rw [List.range_succ, List.flatMap_append]
    by_cases hkm : k = m
    · subst hkm
      rw [flatMap_nil_of_forall g _ fun i hi => hg i (by simp at hi; omega)]
      simp
    · rw [ih k (by omega) hg]
      simp [hg m fun h => hkm h.symm]

/-- A filterMap over a range whose function is `none` away from one index,
where it is `some a`, collapses to `[a]`. -/
theorem range_filterMap_single {α : Type} (f : Nat → Option α) (a : α) :
    ∀ n k : Nat, k < n → f k = some a → (∀ i, i ≠ k → f i = none) →
      (List.range n).filterMap f = [a] := by
  intro n
  induction n with
  | zero => intro k hk; omega
  | succ m ih =>
    intro k hk hfk hf
    rw [List.range_succ, List.filterMap_append]
    by_cases hkm : k = m
    · subst hkm
      rw [filterMap_nil_of_forall f _ fun i hi => hf i (by simp at hi; omega)]
      simp [List.filterMap_cons, hfk]
    · rw [ih k (by omega) hfk hf]
      have hm : f m = none := hf m fun h => hkm h.symm
      simp [List.filterMap_cons, hm]

/-- On the single-cell grid the window peak test succeeds only for the
window centered on the hot cell: the threshold rules out every zero cell. -/
theorem isPeakAt_oneCellGrid (i j : Nat) :
    isPeakAt oneCellGrid 5 5 i j = true ↔ (i = 48 ∧ j = 58) := by
  constructor
  · intro h
    simp only [isPeakAt, Bool.and_eq_true, decide_eq_true_eq] at h
    obtain ⟨hmax, hth⟩ := h
    by_contra hc
    have hno : ¬(i + 5 / 2 = 50 ∧ j + 5 / 2 = 60) := by
      intro hcon
      exact hc ⟨by omega, by omega⟩
    have hz : oneCellGrid (i + 5 / 2) (j + 5 / 2) = 0 := by
      unfold oneCellGrid
      rw [if_neg hno]
    rw [hz] at hth
    omega
  · rintro ⟨rfl, rfl⟩
    decide

/-- The candidate list of the single-cell grid is exactly the hot cell. -/
theorem oneCellGrid_candidates :
    slidingPeakCandidates oneCellGrid 5 53 63 5 = [(50, 60)] := by
  have hrow : ∀ i : Nat, i ≠ 48 →
      ((List.range (63 + 1 - 5)).filterMap fun j =>
        if isPeakAt oneCellGrid 5 5 i j then some (i + 5 / 2, j + 5 / 2)
        else none) = [] := by
    intro i hi
    apply filterMap_nil_of_forall
    intro j hj
    simp [isPeakAt_oneCellGrid, hi]
  have hcol : ∀ j : Nat, j ≠ 58 →
      (if isPeakAt oneCellGrid 5 5 48 j then some ((48 : Nat) + 5 / 2, j + 5 / 2)
       else none) = none := by
    intro j hj
    simp [isPeakAt_oneCellGrid, hj]
  unfold slidingPeakCandidates
  rw [range_flatMap_single _ (53 + 1 - 5) 48 (by omega) hrow]
  rw [range_filterMap_single _ (50, 60) (63 + 1 - 5) 58 (by omega)
    (by simp [isPeakAt_oneCellGrid]) hcol]

/-- Coordinates returned by the detector on the single-cell grid (window
size `2 * min_distance = 4`, bumped to 5): the single candidate survives the
merge loop untouched. -/
theorem oneCellGrid_coords :
    vectorizedSlidingPeaks oneCellGrid 5 53 63 2 (2 * 2) = [(50, 60)] := by
  simp only [vectorizedSlidingPeaks]
  rw [show oddWindow (2 * 2) = 5 from rfl, oneCellGrid_candidates]
  decide

/-- C5: with window size `w = 2 * min_distance`, bumped to the next odd value
when even, a grid cell is a candidate peak iff its centered `w × w` window
fits entirely inside the grid, its value equals the maximum over that window,
and its value is at least `threshold_abs`; on a grid that is zero everywhere
except a single cell of value 10 at row 50, column 60, with
`threshold_abs = 5` and `min_distance = 2`, the detector returns exactly one
peak, at the bin-center coordinates of (row 50, column 60), with height
10. -/
theorem peak_candidate_iff_and_single_cell_detector :
    (∀ (α : Type) [LinearOrder α] (M : Nat → Nat → α) (minH : α)
        (R C minDist r c : Nat),
        (r, c) ∈ slidingPeakCandidates M minH R C (oddWindow (2 * minDist)) ↔
          (minDist ≤ r ∧ r + minDist < R ∧ minDist ≤ c ∧ c + minDist < C ∧
            M r c = windowMax M (oddWindow (2 * minDist)) (r - minDist) (c - minDist) ∧
            minH ≤ M r c)) ∧
    (∀ xedges yedges : Nat → ℚ,
        findLocalMaxima2d oneCellGrid 53 63 xedges yedges 5 2 =
          [(binCenters xedges 60, binCenters yedges 50, 10)]) := by
  constructor
  · intro α _ M minH R C m r c
    exact mem_slidingPeakCandidates M minH R C m r c
  · intro xedges yedges
    unfold findLocalMaxima2d
    rw [oneCellGrid_coords]
    simp [oneCellGrid]

/-- Witness for the candidate characterization: the single hot cell of
`oneCellGrid` is a candidate peak. -/
theorem peak_candidate_iff_witness :
    (50, 60) ∈ slidingPeakCandidates oneCellGrid 5 53 63 (oddWindow (2 * 2)) :=
  (peak_candidate_iff_and_single_cell_detector.1 Nat oneCellGrid
    5 53 63 2 50 60).mpr (by decide)

/-- C3: in peak merging, a processed close pair in which both candidates are
still kept discards the strictly lower-valued candidate, an exact value tie
discards the candidate with the higher index in the original row-major
candidate ordering, and a pair one of whose candidates was already discarded
changes nothing; on the grid with two adjacent equal-valued maxima within
`min_distance`, exactly one peak survives merging and it is the
earlier-discovered one, (2, 2). -/
theorem merge_discards_lower_value_and_breaks_ties_earlier :
    (∀ (α : Type) [LinearOrder α] (v : Nat → α) (keep : List Nat) (i j : Nat),
        i < j → i ∈ keep → j ∈ keep →
          ((v i < v j → mergeStep v keep (i, j) = keep.erase i) ∧
           (v j < v i → mergeStep v keep (i, j) = keep.erase j) ∧
           (v i = v j → mergeStep v keep (i, j) = keep.erase j))) ∧
    (∀ (α : Type) [LinearOrder α] (v : Nat → α) (keep : List Nat) (i j : Nat),
        i ∉ keep ∨ j ∉ keep → mergeStep v keep (i, j) = keep) ∧
    vectorizedSlidingPeaks twoMaxGrid 6 5 6 2 4 = [(2, 2)] := by
  refine ⟨?_, ?_, by decide⟩
  · intro α _ v keep i j hij hi hj
    refine ⟨?_, ?_, ?_⟩
    · intro hv
      simp only [mergeStep]
      rw [if_pos ⟨hij, hi, hj⟩, if_neg (not_le.mpr hv)]
    · intro hv
      simp only [mergeStep]
      rw [if_pos ⟨hij, hi, hj⟩, if_pos hv.le]
    · intro hv
      simp only [mergeStep]
      rw [if_pos ⟨hij, hi, hj⟩, if_pos hv.ge]
  · intro α _ v keep i j h
    simp only [mergeStep]
    rw [if_neg]
    rintro ⟨-, hi, hj⟩
    rcases h with h | h
    · exact h hi
    · exact h hj

/-- Witness for the merge tie-break rule: on two kept candidates of equal
value, the later-discovered one (index 1) is erased. -/
theorem merge_tie_break_witness :
    mergeStep (fun _ : Nat => (7 : Nat)) [0, 1] (0, 1) = [0] :=
  (((merge_discards_lower_value_and_breaks_ties_earlier.1 Nat
    (fun _ => 7) [0, 1] 0 1 (by decide) (by decide) (by decide)).2.2) rfl).trans
    (by decide)

/-- Truncation acts as the identity on rationals that are integers. -/
theorem pyInt_intCast (z : Int) : pyInt ((z : ℚ)) = z := by
  simp [pyInt]

/-- For slices other than -1, `get_slice_bounds` returns the eased lower and
upper bounds. -/
theorem getSliceBounds_of_ne (ease : ℚ → ℚ) (s : Int) (h : ¬s = -1) :
    getSliceBounds ease s = (some (easeLo ease s), some (easeHi ease s)) := by
  simp [getSliceBounds, h]

/-- A bitwise OR with a nonzero right operand is nonzero. -/
theorem lor_ne_zero_right (x y : Nat) (h : y ≠ 0) : x ||| y ≠ 0 := by
  intro hc
  rcases Nat.exists_most_significant_bit h with ⟨i, hi, -⟩
  have ht := Nat.testBit_lor x y i
  rw [hc] at ht
  simp [hi] at ht

/-- C6: the track filter admits exactly the tracks in the strict vz window
whose cotangent lies strictly between `bounds(0).lo` and `bounds(32).hi` when
`slice_num > -1` and, in the other branch (taken at `slice_num == -1`),
strictly between `bounds(10).lo` and `bounds(22).hi` with curvature bin
strictly inside `(square_size, nbin_qpt - square_size)`; the result is the
stable filter of the input list by that admission predicate, so admitted
tracks keep their relative input order. -/
theorem filterTracksForSlice_eq_spec_filter (ease : ℚ → ℚ) (vzMin vzMax : ℚ)
    (size nbinQpt : Nat) (tracks : List Track) (sliceNum : Int) :
    filterTracksForSlice ease vzMin vzMax size nbinQpt tracks sliceNum =
      tracks.filter fun t =>
        decide (admittedBySpec ease vzMin vzMax size nbinQpt sliceNum t) := by
  by_cases h : sliceNum > -1
  · rw [filterTracksForSlice, if_pos h, filterByCotRange, filterByVzRange,
      List.filter_filter]
    apply List.filter_congr
    intro t _
    rw [← Bool.decide_and, decide_eq_decide]
    simp only [admittedBySpec, if_pos h]
    tauto
  · rw [filterTracksForSlice, if_neg h, filterByCotRange, filterByVzRange,
      List.filter_filter, List.filter_filter]
    apply List.filter_congr
    intro t _
    rw [← Bool.decide_and, ← Bool.decide_and, decide_eq_decide]
    simp only [admittedBySpec, if_neg h, zero_add]
    tauto

/-- C7 counterexample: selecting the unrecognized easing name "Gaussian"
through the legacy `HoughSlicer.easing` does not fail; the dispatch falls
through to the final `else` branch and silently applies the Linear easing
(here with four distinct non-linear stand-ins, none of which is applied). -/
theorem houghSlicerEasing_unknown_name_is_identity :
    houghSlicerEasing (fun q => q + 1) (fun q => q + 2) (fun q => q + 3)
      (fun q => q + 4) "Gaussian" 7 = 7 := by
  with_unfolding_all decide

/-- C7 (amended): `EasingStrategyFactory.create` succeeds exactly on the five
recognized names and yields the corresponding variant for each of them, while
the legacy `HoughSlicer.easing` treats every name outside the four
non-linear ones (including unrecognized names) as Linear, returning its input
unchanged instead of failing. -/
theorem factory_create_exact_and_legacy_fallback :
    (∀ name : String,
        (factoryCreate name).isSome = true ↔
          name ∈ ["Linear", "InSine", "InSquare", "InCubic", "InCirc"]) ∧
    (factoryCreate "Linear" = some EasingVariant.linear ∧
     factoryCreate "InSine" = some EasingVariant.inSine ∧
     factoryCreate "InSquare" = some EasingVariant.inSquare ∧
     factoryCreate "InCubic" = some EasingVariant.inCubic ∧
     factoryCreate "InCirc" = some EasingVariant.inCirc) ∧
    (∀ (fInSine fInSquare fInCubic fInCirc : ℚ → ℚ) (x : ℚ) (name : String),
        name ∉ ["InSine", "InSquare", "InCubic", "InCirc"] →
          houghSlicerEasing fInSine fInSquare fInCubic fInCirc name x = x) := by
  refine ⟨?_, ⟨rfl, rfl, rfl, rfl, rfl⟩, ?_⟩
  · intro name
    by_cases h1 : name = "Linear"
    · simp [factoryCreate, strategiesDict, List.lookup, h1]
    by_cases h2 : name = "InSine"
    · simp [factoryCreate, strategiesDict, List.lookup, h2]
    by_cases h3 : name = "InSquare"
    · simp [factoryCreate, strategiesDict, List.lookup, h3]
    by_cases h4 : name = "InCubic"
    · simp [factoryCreate, strategiesDict, List.lookup, h4]
    by_cases h5 : name = "InCirc"
    · simp [factoryCreate, strategiesDict, List.lookup, h5]
    have b1 : (name == "Linear") = false := beq_eq_false_iff_ne.mpr h1
    have b2 : (name == "InSine") = false := beq_eq_false_iff_ne.mpr h2
    have b3 : (name == "InSquare") = false := beq_eq_false_iff_ne.mpr h3
    have b4 : (name == "InCubic") = false := beq_eq_false_iff_ne.mpr h4
    have b5 : (name == "InCirc") = false := beq_eq_false_iff_ne.mpr h5
    simp [factoryCreate, strategiesDict, List.lookup, b1, b2, b3, b4, b5,
      h1, h2, h3, h4, h5]
  · intro fInSine fInSquare fInCubic fInCirc x name h
    simp only [List.mem_cons, List.not_mem_nil, or_false, not_or] at h
    simp [houghSlicerEasing, h.1, h.2.1, h.2.2.1, h.2.2.2]

/-- Witness instantiating the legacy fallback: the unrecognized name "Step"
selects the Linear identity. -/
theorem factory_fallback_witness :
    houghSlicerEasing (fun q => q) (fun q => q) (fun q => q) (fun q => q)
      "Step" 3 = 3 :=
  factory_create_exact_and_legacy_fallback.2.2 (fun q => q) (fun q => q)
    (fun q => q) (fun q => q) 3 "Step" (by decide)

/-- Pointwise description of `update_track_reconstruction_status` (with the
running index `idx`): within bounds, entry `i` of the result is the input
track with its flag OR-combined with its mask bit. -/
theorem updateTracksFrom_getD (mask : List Nat) :
    ∀ (tracks : List Track) (idx i : Nat) (t0 : Track), i < tracks.length →
      (updateTracksFrom mask tracks idx).1.getD i t0 =
        { tracks.getD i t0 with
            is_reconstructed := (tracks.getD i t0).is_reconstructed ||
              decide (mask.getD (idx + i) 0 > 0) } := by
  intro tracks
  induction tracks with
  | nil => intro idx i t0 h; simp at h
  | cons t ts ih =>
    intro idx i t0 h
    cases i with
    | zero =>
      simp only [updateTracksFrom, List.getD_cons_zero, Nat.add_zero]
      split
      case isTrue hc =>
        obtain ⟨hm, htb⟩ := hc
        have hd : decide (mask.getD idx 0 > 0) = true := decide_eq_true hm
        simp only [List.getD_cons_zero, markReconstructed, htb, hd, Bool.false_or]
      case isFalse hc =>
        simp only [List.getD_cons_zero]
        have hb : (t.is_reconstructed || decide (mask.getD idx 0 > 0)) =
            t.is_reconstructed := by
          cases htb : t.is_reconstructed
          · have hn : ¬mask.getD idx 0 > 0 := fun hm => hc ⟨hm, htb⟩
            have hd : decide (mask.getD idx 0 > 0) = false := decide_eq_false hn
            rw [hd, Bool.or_false]
          · rw [Bool.true_or]
        rw [hb]
    | succ n =>
      have hlt : n < ts.length := by simpa using h
      have hidx : idx + 1 + n = idx + (n + 1) := by omega
      simp only [updateTracksFrom]
      split
      · simp only [List.getD_cons_succ]
        rw [ih (idx + 1) n t0 hlt, hidx]
      · simp only [List.getD_cons_succ]
        rw [ih (idx + 1) n t0 hlt, hidx]

/-- The update keeps the track count. -/
theorem updateTracksFrom_length (mask : List Nat) :
    ∀ (tracks : List Track) (idx : Nat),
      (updateTracksFrom mask tracks idx).1.length = tracks.length := by
  intro tracks
  induction tracks with
  | nil => intro idx; rfl
  | cons t ts ih =>
    intro idx
    simp only [updateTracksFrom]
    split <;> simp [ih]

/-- Pointwise description of the OR of two equal-length mask columns. -/
theorem zipOr_getD :
    ∀ (a b : List Nat) (i : Nat), a.length = b.length →
      ((a.zip b).map fun p => p.1 ||| p.2).getD i 0 = a.getD i 0 ||| b.getD i 0 := by
  intro a
  induction a with
  | nil =>
    intro b i h
    cases b with
    | nil => simp
    | cons y ys => simp at h
  | cons x xs ih =>
    intro b i h
    cases b with
    | nil => simp at h
    | cons y ys =>
      cases i with
      | zero => simp
      | succ n =>
        simp only [List.zip_cons_cons, List.map_cons, List.getD_cons_succ]
        exact ih ys n (by simpa using h)

/-- C4: every per-pass update of the reconstructed flag OR-combines the new
assignment bit with the prior flag, in both the service update
(`update_track_reconstruction_status`) and the legacy per-event update
(`result_mask | reco` in `match_and_write`), so a flag that is true is never
reset by an engine operation. -/
theorem reconstructed_flag_or_update_and_monotone :
    (∀ (tracks : List Track) (mask : List Nat) (i : Nat) (t0 : Track),
        i < tracks.length →
        ((updateTrackReconstructionStatus tracks mask).1.getD i t0).is_reconstructed =
          ((tracks.getD i t0).is_reconstructed || decide (mask.getD i 0 > 0))) ∧
    (∀ (tracks : List Track) (mask : List Nat) (i : Nat) (t0 : Track),
        (tracks.getD i t0).is_reconstructed = true →
        ((updateTrackReconstructionStatus tracks mask).1.getD i t0).is_reconstructed
          = true) ∧
    (∀ (recoVals resultMask : List Nat) (i : Nat),
        resultMask.length = recoVals.length →
        (applyRecoUpdate recoVals resultMask).1.getD i 0 =
          resultMask.getD i 0 ||| recoVals.getD i 0) ∧
    (∀ (recoVals resultMask : List Nat) (i : Nat),
        recoVals.getD i 0 ≠ 0 →
        (applyRecoUpdate recoVals resultMask).1.getD i 0 ≠ 0) := by
  refine ⟨?_, ?_, ?_, ?_⟩
  · intro tracks mask i t0 h
    rw [updateTrackReconstructionStatus, updateTracksFrom_getD mask tracks 0 i t0 h]
    simp
  · intro tracks mask i t0 h
    by_cases hlen : i < tracks.length
    · rw [updateTrackReconstructionStatus, updateTracksFrom_getD mask tracks 0 i t0 hlen]
      simp only [h, Bool.true_or]
    · have h1 : tracks.length ≤ i := by omega
      have h2 : (updateTracksFrom mask tracks 0).1.length ≤ i := by
        rw [updateTracksFrom_length]; exact h1
      rw [updateTrackReconstructionStatus, List.getD_eq_default _ _ h2]
      rw [List.getD_eq_default _ _ h1] at h
      exact h
  · intro a b i h
    simp only [applyRecoUpdate, if_pos h]
    exact zipOr_getD b a i h
  · intro a b i h
    by_cases hlen : b.length = a.length
    · simp only [applyRecoUpdate, if_pos hlen]
      rw [zipOr_getD b a i hlen]
      exact lor_ne_zero_right _ _ h
    · simp only [applyRecoUpdate, if_neg hlen]
      exact h

/-- Witness for flag monotonicity: an already reconstructed track stays
reconstructed through an update whose mask bit is 0. -/
theorem reconstructed_flag_witness :
    ((updateTrackReconstructionStatus [markReconstructed sampleTrack]
        [0]).1.getD 0 sampleTrack).is_reconstructed = true :=
  reconstructed_flag_or_update_and_monotone.2.1 [markReconstructed sampleTrack]
    [0] 0 sampleTrack (by rfl)

/-- C10: a matching call threads the track list through unchanged (the
accumulator is a read-only parameter and each square's data is computed from
it on extraction), and the separate reconstruction-status update only ever
changes the `is_reconstructed` field of a track, leaving every other field
as it was. -/
theorem match_preserves_tracks_update_changes_only_flag :
    (∀ (values : Nat → Nat → ℚ) (R C size : Nat) (tolerance : ℚ)
        (peaks : List Peak) (tracks : List Track),
        (matchAndExtractSquares values R C size tolerance peaks tracks).2.2 =
          tracks) ∧
    (∀ (tracks : List Track) (mask : List Nat) (i : Nat) (t0 : Track),
        i < tracks.length →
        (updateTrackReconstructionStatus tracks mask).1.getD i t0 =
          { tracks.getD i t0 with
              is_reconstructed := (tracks.getD i t0).is_reconstructed ||
                decide (mask.getD i 0 > 0) }) := by
  constructor
  · intro values R C size tolerance peaks tracks
    have hstep : ∀ st p, (matchStep values R C size tolerance st p).2.2 = st.2.2 := by
      intro st p
      unfold matchStep
      rcases hres : extractAndClassifySquare values R C size tolerance p st.2.2 st.2.1
        with ⟨osq, has, midx⟩
      cases osq <;> rfl
    have hfold : ∀ (ps : List Peak) st,
        (ps.foldl (matchStep values R C size tolerance) st).2.2 = st.2.2 := by
      intro ps
      induction ps with
      | nil => intro st; rfl
      | cons p ps ih => intro st; rw [List.foldl_cons, ih, hstep]
    exact hfold peaks _
  · intro tracks mask i t0 h
    rw [updateTrackReconstructionStatus, updateTracksFrom_getD mask tracks 0 i t0 h]
    simp

/-- Witness for the frame property of the update at the sample track. -/
theorem update_changes_only_flag_witness :
    (updateTrackReconstructionStatus [sampleTrack] [1]).1.getD 0 sampleTrack =
      { List.getD [sampleTrack] 0 sampleTrack with
          is_reconstructed :=
            (List.getD [sampleTrack] 0 sampleTrack).is_reconstructed ||
              decide (List.getD [1] 0 0 > 0) } :=
  match_preserves_tracks_update_changes_only_flag.2 [sampleTrack] [1] 0
    sampleTrack (by decide)

/-- C9: a length mismatch between the per-event result mask and the stored
track records only produces the printed warning and leaves the stored flags
unchanged, while the call still returns its outputs normally; with matching
lengths the flags are OR-combined and no warning is emitted. -/
theorem reco_length_mismatch_warns_and_continues :
    (∀ (trueSquares falseSquares : List (List (List Int))) (n : Nat)
        (recoVals resultMask : List Nat),
        resultMask.length ≠ recoVals.length →
        matchAndWriteFinish trueSquares falseSquares n recoVals resultMask =
          ((trueSquares, falseSquares, n), recoVals, true)) ∧
    (∀ (trueSquares falseSquares : List (List (List Int))) (n : Nat)
        (recoVals resultMask : List Nat),
        resultMask.length = recoVals.length →
        matchAndWriteFinish trueSquares falseSquares n recoVals resultMask =
          ((trueSquares, falseSquares, n),
            (resultMask.zip recoVals).map (fun p => p.1 ||| p.2), false)) := by
  constructor
  · intro ts fs n a b h
    simp [matchAndWriteFinish, applyRecoUpdate, h]
  · intro ts fs n a b h
    simp [matchAndWriteFinish, applyRecoUpdate, h]

/-- Witness for the mismatch branch: two stored records against a
single-entry mask produce a warning and unchanged flags, and the outputs are
still returned. -/
theorem reco_length_mismatch_witness :
    matchAndWriteFinish [] [] 3 [0, 1] [1] = (([], [], 3), [0, 1], true) :=
  reco_length_mismatch_warns_and_continues.1 [] [] 3 [0, 1] [1] (by decide)

/-- Setting one mask entry to 1 raises the column sum by at most one. -/
theorem sum_set_one_le (l : List Nat) : ∀ k : Nat, (l.set k 1).sum ≤ l.sum + 1 := by
  induction l with
  | nil => intro k; simp
  | cons a t ih =>
    intro k
    cases k with
    | zero =>
      simp only [List.set_cons_zero, List.sum_cons]
      omega
    | succ n =>
      simp only [List.set_cons_succ, List.sum_cons]
      have := ih n
      omega

/-- One matching step keeps the mask sum bounded by the number of produced
squares: a mask entry is set only in the branch that also appends a
square. -/
theorem matchStep_sum_le (values : Nat → Nat → ℚ) (R C size : Nat)
    (tolerance : ℚ) (st : List HoughSquare × List Nat × List Track) (p : Peak)
    (h : st.2.1.sum ≤ st.1.length) :
    (matchStep values R C size tolerance st p).2.1.sum ≤
      (matchStep values R C size tolerance st p).1.length := by
  unfold matchStep
  rcases hres : extractAndClassifySquare values R C size tolerance p st.2.2 st.2.1
    with ⟨osq, has, midx⟩
  cases osq with
  | none => exact h
  | some sq =>
    cases has with
    | false =>
      simp only [Bool.false_eq_true, if_false, List.length_append,
        List.length_cons, List.length_nil]
      omega
    | true =>
      cases midx with
      | none =>
        simp only [if_true, List.length_append, List.length_cons, List.length_nil]
        omega
      | some k =>
        have h2 := sum_set_one_le st.2.1 k
        simp only [if_true, List.length_append, List.length_cons, List.length_nil]
        omega

/-- The mask-sum bound is preserved across the whole peak loop. -/
theorem matchFold_sum_le (values : Nat → Nat → ℚ) (R C size : Nat)
    (tolerance : ℚ) :
    ∀ (peaks : List Peak) (st : List HoughSquare × List Nat × List Track),
      st.2.1.sum ≤ st.1.length →
      (peaks.foldl (matchStep values R C size tolerance) st).2.1.sum ≤
        (peaks.foldl (matchStep values R C size tolerance) st).1.length := by
  intro peaks
  induction peaks with
  | nil => intro st h; exact h
  | cons p ps ih =>
    intro st h
    rw [List.foldl_cons]
    exact ih _ (matchStep_sum_le values R C size tolerance st p h)

/-- C2 (amended): in the service matcher, a peak whose clipped extraction
region is not exactly 2S × 2S is discarded entirely — it produces no square
and claims no track — and for every matching call the sum of the assignment
mask is at most the number of produced (valid) squares.  The legacy
`get_hough_squares`, in contrast, lets such a peak claim tracks (see the
counterexample theorem). -/
theorem wrong_shape_peak_claims_nothing_and_mask_bounded :
    (∀ (values : Nat → Nat → ℚ) (R C size : Nat) (tolerance : ℚ) (peak : Peak)
        (tracks : List Track) (mask : List Nat),
        ¬((clipBounds R C size peak).2.1 - (clipBounds R C size peak).1 =
            (2 * size : Int) ∧
          (clipBounds R C size peak).2.2.2 - (clipBounds R C size peak).2.2.1 =
            (2 * size : Int)) →
        extractAndClassifySquare values R C size tolerance peak tracks mask =
          (none, false, none)) ∧
    (∀ (values : Nat → Nat → ℚ) (R C size : Nat) (tolerance : ℚ)
        (peaks : List Peak) (tracks : List Track),
        (matchAndExtractSquares values R C size tolerance peaks tracks).2.1.sum ≤
          (matchAndExtractSquares values R C size tolerance peaks tracks).1.length) := by
  constructor
  · intro values R C size tolerance peak tracks mask h
    simp only [clipBounds] at h
    simp only [extractAndClassifySquare]
    split <;> rfl
  · intro values R C size tolerance peaks tracks
    apply matchFold_sum_le
    simp [List.sum_replicate]

/-- Witness: a peak at (5,5) on a 10×10 grid with square size 16 has a
clipped 10×10 region, so the service matcher discards it without claiming a
track. -/
theorem wrong_shape_witness :
    extractAndClassifySquare (fun _ _ => 0) 10 10 16 6 ⟨5, 5, 0⟩ [] [] =
      (none, false, none) :=
  wrong_shape_peak_claims_nothing_and_mask_bounded.1 (fun _ _ => 0) 10 10 16 6
    ⟨5, 5, 0⟩ [] [] (by with_unfolding_all decide)

/-- C2 counterexample: in the legacy `get_hough_squares` the claiming loop
runs before the shape check, so on a 10×10 zero grid with SIZE 16 (clipped
10×10 region) a peak at (5,5) produces no square at all yet claims the true
track at (5,5): no true or false squares, but assignment mask [1], whose sum
1 exceeds the 0 produced squares. -/
theorem legacy_clipped_peak_still_claims_track :
    getHoughSquaresCore (fun _ _ => 0) 10 10 16 6 [(5, 5)] [(5, 5)] =
      ([], [], [1]) := by
  with_unfolding_all decide

/-- C1: the legacy `get_hough_squares` claiming loop has no break, so one
reconstructed peak claims every not-yet-claimed admitted track within
tolerance, not exactly the first one: with a single peak at (4,4) (size 2,
tolerance 6) and two admitted tracks at distances 0 and 2, both mask entries
are set to 1 (the claim requires [1, 0]) although exactly one true-positive
square is produced.  The code's own comment above this loop states
"One-to-one assignment between reconstructed peaks and true tracks", and the
refactored `HoughMatcherService._extract_and_classify_square` breaks after
the first match. -/
theorem legacy_single_peak_claims_two_tracks :
    getHoughSquaresCore (fun _ _ => 0) 12 12 2 6 [(4, 4)] [(4, 4), (4, 6)] =
      ([List.replicate 4 (List.replicate 4 (0 : Int))], [], [1, 1]) := by
  with_unfolding_all decide

/-- C8 (amended): for every peak whose 2S × 2S extraction region lies fully
inside the grid, the data stored in the produced square is the element-wise
`astype(int)` truncation of the corresponding 2S × 2S slice of the source
grid; on entries whose grid value is an integer the truncation is the
identity, so there the stored data equals the slice exactly (and hence the
whole square equals the slice whenever the grid is integer-valued). -/
theorem extract_interior_data_eq_truncated_slice
    (values : Nat → Nat → ℚ) (R C size : Nat) (tolerance : ℚ) (peak : Peak)
    (tracks : List Track) (mask : List Nat)
    (hsize : 0 < size)
    (hy0 : 0 ≤ pyInt (peak.y - (size : ℚ)))
    (hyR : pyInt (peak.y - (size : ℚ) + 2 * (size : ℚ)) ≤ (R : Int))
    (hyw : pyInt (peak.y - (size : ℚ) + 2 * (size : ℚ)) -
      pyInt (peak.y - (size : ℚ)) = (2 * size : Int))
    (hx0 : 0 ≤ pyInt (peak.x - (size : ℚ)))
    (hxC : pyInt (peak.x - (size : ℚ) + 2 * (size : ℚ)) ≤ (C : Int))
    (hxw : pyInt (peak.x - (size : ℚ) + 2 * (size : ℚ)) -
      pyInt (peak.x - (size : ℚ)) = (2 * size : Int)) :
    Option.map HoughSquare.data
        (extractAndClassifySquare values R C size tolerance peak tracks mask).1 =
      some ((List.range (2 * size)).map fun i =>
        (List.range (2 * size)).map fun j =>
          pyInt (values ((pyInt (peak.y - (size : ℚ))).toNat + i)
            ((pyInt (peak.x - (size : ℚ))).toNat + j))) ∧
    (∀ q : ℚ, (∃ z : Int, q = (z : ℚ)) → ((pyInt q : Int) : ℚ) = q) := by
  constructor
  · have h2s : ((2 * size : Int)).toNat = 2 * size := by omega
    simp only [extractAndClassifySquare]
    rw [max_eq_right hy0, min_eq_right hyR, max_eq_right hx0, min_eq_right hxC]
    rw [if_neg (by omega : ¬(pyInt (peak.y - (size : ℚ) + 2 * (size : ℚ)) ≤
        pyInt (peak.y - (size : ℚ)) ∨
      pyInt (peak.x - (size : ℚ) + 2 * (size : ℚ)) ≤ pyInt (peak.x - (size : ℚ))))]
    rw [if_neg (not_not_intro ⟨hyw, hxw⟩)]
    rcases hfm : firstMatch peak tolerance mask tracks 0 with _ | idx <;>
      simp only [Option.map_some] <;>
      rw [sliceRegion, hyw, hxw, h2s] <;>
      simp [List.map_map, Function.comp]
  · rintro q ⟨z, rfl⟩
    rw [pyInt_intCast]

/-- Witness: on the constant integer grid of value 3, the interior square at
(4, 4) with size 2 stores the truncated (here unchanged) 4 × 4 slice. -/
theorem extract_interior_witness :
    Option.map HoughSquare.data
        (extractAndClassifySquare (fun _ _ => (3 : ℚ)) 12 12 2 6 ⟨4, 4, 0⟩
          [] []).1 =
      some ((List.range (2 * 2)).map fun _ =>
        (List.range (2 * 2)).map fun _ => pyInt (3 : ℚ)) :=
  (extract_interior_data_eq_truncated_slice (fun _ _ => (3 : ℚ)) 12 12 2 6
    ⟨4, 4, 0⟩ [] [] (by decide) (by with_unfolding_all decide)
    (by with_unfolding_all decide) (by with_unfolding_all decide)
    (by with_unfolding_all decide) (by with_unfolding_all decide)
    (by with_unfolding_all decide)).1

/-- C8 counterexample: the stored square data is not element-wise equal to
the grid slice when a grid value is not an integer: at the fully interior
peak (4, 4) with size 2 on `halfCellGrid`, the stored entry for grid cell
(4, 4) is the truncation 0, while the grid holds 1/2 there. -/
theorem extract_stores_truncation_not_grid_value :
    Option.map HoughSquare.data
        (extractAndClassifySquare halfCellGrid 8 8 2 6 ⟨4, 4, 0⟩ [] []).1 =
      some [[1, 1, 1, 1], [1, 1, 1, 1], [1, 1, 0, 1], [1, 1, 1, 1]] ∧
    halfCellGrid 4 4 = 1 / 2 ∧ ((0 : Int) : ℚ) ≠ halfCellGrid 4 4 := by
  refine ⟨?_, ?_, ?_⟩ <;> with_unfolding_all decide
